import Mathlib

/-!
Shallow embedding of the two core components of the desktop Git client:

* the `GitStore` incremental commit-history loader
  (`src/app/src/lib/dispatcher/git-store.ts`), and
* the `RepositoriesStore` repository catalog
  (`src/src/shared-process/repositories-store.ts`).

The external Git-command collaborator (`LocalGitOperations.getCommits`) is
modelled by passing its result as an explicit parameter: `some batch` for a
successful fetch, `none` for a thrown failure (which the store's
`performFailableOperation` wrapper converts into an error emission plus an
`undefined` result).  Notifications and collaborator invocations are recorded
in an explicit event trace.
-/

/-- The number of commits to load from history per batch
(`const CommitBatchSize = 100`). -/
def CommitBatchSize : Nat := 100

/-- The request key guarding whole-history loads
(`const LoadingHistoryRequestKey = 'history'`). -/
def LoadingHistoryRequestKey : String := "history"

/-- Modelled from the spec: the `Commit` model class
(`src/app/src/lib/local-git-operations.ts`, not under `src/`) is a value
object carrying SHA, summary, body, author identity and parent SHAs
(spec section 3, CommitRecord). -/
structure Commit where
  sha : String
  summary : String
  body : String
  authorName : String
  authorEmail : String
  authorDate : Nat
  parentSHAs : List String
deriving DecidableEq

/-- Observable actions of the history cache: invocations of the external
Git-log collaborator and the three notification channels. -/
inductive GitEvent where
  | gitLogCall (revisionRange : String) (batchSize : Nat)
  | newCommitsLoaded (commits : List Commit)
  | didUpdate
  | didError
deriving DecidableEq

def isGitLogCall : GitEvent → Bool
  | GitEvent.gitLogCall _ _ => true
  | _ => false

def isNewCommitsLoaded : GitEvent → Bool
  | GitEvent.newCommitsLoaded _ => true
  | _ => false

def isDidUpdate : GitEvent → Bool
  | GitEvent.didUpdate => true
  | _ => false

def isDidError : GitEvent → Bool
  | GitEvent.didError => true
  | _ => false

/-- The mutable state of a `GitStore` instance: the commit map keyed by SHA
(a JavaScript `Map`, modelled as an insertion-ordered association list), the
ordered history of SHAs, and the set of in-flight request keys
(field name `requestsInFight` kept from the source). -/
structure GitStore where
  commits : List (String × Commit)
  history : List String
  requestsInFight : List String
deriving DecidableEq

/-- `Map.set` on a JavaScript `Map`: replace the value in place when the key
is present, otherwise append the binding. -/
def mapSet (m : List (String × Commit)) (k : String) (v : Commit) :
    List (String × Commit) :=
  if m.any (fun p => p.1 == k) then
    m.map (fun p => if p.1 == k then (k, v) else p)
  else
    m ++ [(k, v)]

/-- `Set.add`: insert the key when absent (JavaScript sets ignore duplicate
adds). -/
def setAdd (s : List String) (k : String) : List String :=
  if s.contains k then s else s ++ [k]

/-- `Set.delete`: remove the key. -/
def setDelete (s : List String) (k : String) : List String :=
  s.filter (fun x => x != k)

/-- `storeCommits`: merge a batch of commits into the commit map, keyed by
SHA. -/
def storeCommits (m : List (String × Commit)) (cs : List Commit) :
    List (String × Commit) :=
  cs.foldl (fun acc c => mapSet acc c.sha c) m

/-- The reconciliation step of `loadHistory`: when a non-empty history
exists, look for the previous index-0 SHA in the fetched batch
(`commits.findIndex(c => c.sha === mostRecent)`); when found at `index`,
keep `commits.slice(0, index)` and the whole old history, otherwise drop
the old history. Returns the (possibly truncated) batch and the
(possibly cleared) existing history. -/
def spliceHistory (batch : List Commit) (existingHistory : List String) :
    List Commit × List String :=
  match existingHistory with
  | [] => (batch, existingHistory)
  | mostRecent :: _ =>
    let index := batch.findIdx (fun c => c.sha == mostRecent)
    if index < batch.length then (batch.take index, existingHistory)
    else (batch, [])

/-- First half of `loadHistory`, up to the `await` of `getCommits`: the
concurrency guard and the insertion of the request key.  The returned flag
says whether the guard passed and a fetch was issued. -/
def loadHistoryStart (s : GitStore) : GitStore × List GitEvent × Bool :=
  if s.requestsInFight.contains LoadingHistoryRequestKey then (s, [], false)
  else
    ({ s with requestsInFight := setAdd s.requestsInFight LoadingHistoryRequestKey },
     [GitEvent.gitLogCall "HEAD" CommitBatchSize], true)

/-- Second half of `loadHistory`, resumed with the result of the fetch.
`none` models a thrown `getCommits`: `performFailableOperation` emits the
error and yields `undefined`, and `loadHistory` returns early — note the
request key is not deleted on this path. -/
def loadHistoryResume (s : GitStore) (fetch : Option (List Commit)) :
    GitStore × List GitEvent :=
  match fetch with
  | none => (s, [GitEvent.didError])
  | some batch =>
    let (commits, existingHistory) := spliceHistory batch s.history
    ({ s with
        history := commits.map (fun c => c.sha) ++ existingHistory,
        commits := storeCommits s.commits commits,
        requestsInFight := setDelete s.requestsInFight LoadingHistoryRequestKey },
     [GitEvent.newCommitsLoaded commits, GitEvent.didUpdate])

/-- `loadHistory` run to completion with no interleaved call. -/
def loadHistory (s : GitStore) (fetch : Option (List Commit)) :
    GitStore × List GitEvent :=
  let (s1, ev1, issued) := loadHistoryStart s
  if issued then
    let (s2, ev2) := loadHistoryResume s1 fetch
    (s2, ev1 ++ ev2)
  else (s1, ev1)

/-- Two `loadHistory` calls where the second is issued while the first is
awaiting its fetch (the spec's P6 scenario): the first call runs to its
suspension point, the second call then runs (synchronously, since its guard
fails), and the first call resumes with `fetch1`. -/
def loadHistoryPair (s : GitStore) (fetch1 fetch2 : Option (List Commit)) :
    GitStore × List GitEvent :=
  let (s1, ev1, issued) := loadHistoryStart s
  if issued then
    let (s2, ev2) := loadHistory s1 fetch2
    let (s3, ev3) := loadHistoryResume s2 fetch1
    (s3, ev1 ++ ev2 ++ ev3)
  else
    let (s2, ev2) := loadHistory s1 fetch2
    (s2, ev1 ++ ev2)

/-- `loadNextHistoryBatch` run to completion: guarded by the whole-history
key, by emptiness of the history, and by the per-batch key
`history/<lastSHA>`; on failure the per-batch key is likewise not
deleted. -/
def loadNextHistoryBatch (s : GitStore) (fetch : Option (List Commit)) :
    GitStore × List GitEvent :=
  if s.requestsInFight.contains LoadingHistoryRequestKey then (s, [])
  else
    match s.history.getLast? with
    | none => (s, [])
    | some lastSHA =>
      let requestKey := "history/" ++ lastSHA
      if s.requestsInFight.contains requestKey then (s, [])
      else
        let s1 := { s with requestsInFight := setAdd s.requestsInFight requestKey }
        match fetch with
        | none =>
          (s1, [GitEvent.gitLogCall (lastSHA ++ "^") CommitBatchSize, GitEvent.didError])
        | some commits =>
          ({ s1 with
              history := s1.history ++ commits.map (fun c => c.sha),
              commits := storeCommits s1.commits commits,
              requestsInFight := setDelete s1.requestsInFight requestKey },
           [GitEvent.gitLogCall (lastSHA ++ "^") CommitBatchSize,
            GitEvent.newCommitsLoaded commits, GitEvent.didUpdate])

/-- Modelled from the spec: the `Owner` model (`src/src/models/owner.ts`,
not under `src/`): a value object carrying login and API endpoint
(spec section 3, RemoteOwner). -/
structure Owner where
  login : String
  endpoint : String
deriving DecidableEq

/-- Modelled from the spec: the `GitHubRepository` model
(`src/src/models/github-repository.ts`, not under `src/`): name, owner,
visibility flag, fork flag, canonical html URL (spec section 3,
RemoteRepository). -/
structure GitHubRepository where
  name : String
  owner : Owner
  isPrivate : Bool
  fork : Bool
  htmlURL : String
deriving DecidableEq

/-- Modelled from the spec: the `Repository` model
(`src/src/models/repository.ts`, not under `src/`): filesystem path,
optional linked GitHub repository, and an identifier that is absent before
insertion (spec section 3, LocalRepository); `withID` returns a copy
carrying the assigned identifier. -/
structure Repository where
  path : String
  gitHubRepository : Option GitHubRepository
  id : Option Nat
deriving DecidableEq

/-- A row of the `repositories` collection. -/
structure DatabaseRepository where
  id : Nat
  path : String
  gitHubRepositoryID : Option Nat
deriving DecidableEq

/-- A row of the `owners` collection. -/
structure DatabaseOwner where
  id : Nat
  login : String
  endpoint : String
deriving DecidableEq

/-- A row of the `gitHubRepositories` collection. -/
structure DatabaseGitHubRepository where
  id : Nat
  name : String
  ownerID : Nat
  isPrivate : Bool
  fork : Bool
  htmlURL : String
deriving DecidableEq

/-- Modelled from the spec: the embedded transactional datastore
(`src/src/shared-process/database.ts`, a Dexie/IndexedDB wrapper, not under
`src/`): three record collections whose integer identifiers are assigned by
auto-increment counters starting at 1 (spec section 6). -/
structure Database where
  repositories : List DatabaseRepository
  gitHubRepositories : List DatabaseGitHubRepository
  owners : List DatabaseOwner
  nextRepositoryID : Nat
  nextGitHubRepositoryID : Nat
  nextOwnerID : Nat
deriving DecidableEq

/-- `db.repositories.get(id)`. -/
def findRepositoryRow (rows : List DatabaseRepository) (i : Nat) :
    Option DatabaseRepository :=
  rows.find? (fun r => r.id == i)

/-- `db.gitHubRepositories.get(id)`. -/
def findGitHubRepositoryRow (rows : List DatabaseGitHubRepository) (i : Nat) :
    Option DatabaseGitHubRepository :=
  rows.find? (fun g => g.id == i)

/-- `db.owners.get(id)`. -/
def findOwnerRow (rows : List DatabaseOwner) (i : Nat) : Option DatabaseOwner :=
  rows.find? (fun o => o.id == i)

/-- Character-wise lowercase mapping, modelling the case folding used by the
datastore's `equalsIgnoreCase` filter. -/
def toLowerStr (s : String) : String := String.mk (s.data.map Char.toLower)

/-- `db.owners.where('login').equalsIgnoreCase(login).limit(1).first()`:
case-insensitive lookup scoped only by login, not by endpoint. -/
def findOwnerByLogin (rows : List DatabaseOwner) (login : String) :
    Option DatabaseOwner :=
  rows.find? (fun o => toLowerStr o.login == toLowerStr login)

/-- Dexie `put` with an explicit key: update the row in place when the key
exists, otherwise insert with that key. -/
def putGitHubRepositoryRow (rows : List DatabaseGitHubRepository)
    (row : DatabaseGitHubRepository) : List DatabaseGitHubRepository :=
  if rows.any (fun g => g.id == row.id) then
    rows.map (fun g => if g.id == row.id then row else g)
  else rows ++ [row]

/-- Error taxonomy of the catalog (spec section 7): a `contractError` models
a `fatalError` call, a `storageError` models a failure raised by the
datastore machinery itself (such as a property access on a row that a `get`
did not find).  Either aborts the enclosing transaction, rolling the
database back. -/
inductive StoreError where
  | contractError (message : String)
  | storageError (message : String)
deriving DecidableEq

/-- Steps 1-3 of the upsert transaction of `updateGitHubRepository`: resolve
the existing linked GitHub-repository row (reusing its identifier and owner
when present — the existing linkage wins) or resolve/create the owner row by
case-insensitive login lookup.  Returns the existing row (if any), the owner
identifier, and the database with the owners collection possibly
extended. -/
def resolveOwner (db : Database) (localRepo : DatabaseRepository)
    (newGitHubRepo : GitHubRepository) :
    Except StoreError (Option DatabaseGitHubRepository × Nat × Database) :=
  match localRepo.gitHubRepositoryID with
  | some ghID =>
    match findGitHubRepositoryRow db.gitHubRepositories ghID with
    | none =>
      Except.error (StoreError.contractError
        "Could not look up an existing GitHub repository.")
    | some existingGitHubRepo =>
      match findOwnerRow db.owners existingGitHubRepo.ownerID with
      | none => Except.error (StoreError.storageError "owner row missing")
      | some owner => Except.ok (some existingGitHubRepo, owner.id, db)
  | none =>
    let owner := newGitHubRepo.owner
    match findOwnerByLogin db.owners owner.login with
    | some existingOwner => Except.ok (none, existingOwner.id, db)
    | none =>
      Except.ok (none, db.nextOwnerID,
        { db with
            owners := db.owners ++
              [{ id := db.nextOwnerID, login := owner.login,
                 endpoint := owner.endpoint }],
            nextOwnerID := db.nextOwnerID + 1 })

/-- Steps 4-5 of the upsert transaction: `put` the GitHub-repository row
(keeping the existing identifier when one was found, otherwise inserting
with a fresh one) and update the local row's reference to it. -/
def writeGitHubRepository (db : Database) (localRepo : DatabaseRepository)
    (newGitHubRepo : GitHubRepository)
    (existingGitHubRepo : Option DatabaseGitHubRepository) (ownerID : Nat) :
    Database :=
  let (gitHubRepositoryID, db2) : Nat × Database :=
    match existingGitHubRepo with
    | some ex =>
      (ex.id,
       { db with
          gitHubRepositories := putGitHubRepositoryRow db.gitHubRepositories
            { id := ex.id, name := newGitHubRepo.name, ownerID := ownerID,
              isPrivate := newGitHubRepo.isPrivate, fork := newGitHubRepo.fork,
              htmlURL := newGitHubRepo.htmlURL } })
    | none =>
      (db.nextGitHubRepositoryID,
       { db with
          gitHubRepositories := db.gitHubRepositories ++
            [{ id := db.nextGitHubRepositoryID, name := newGitHubRepo.name,
               ownerID := ownerID, isPrivate := newGitHubRepo.isPrivate,
               fork := newGitHubRepo.fork, htmlURL := newGitHubRepo.htmlURL }],
          nextGitHubRepositoryID := db.nextGitHubRepositoryID + 1 })
  { db2 with
      repositories := db2.repositories.map (fun r =>
        if r.id == localRepo.id then
          { r with gitHubRepositoryID := some gitHubRepositoryID }
        else r) }

/-- The body of `updateGitHubRepository`'s read-write transaction. -/
def updateGitHubRepositoryTransaction (db : Database) (repoID : Nat)
    (newGitHubRepo : GitHubRepository) : Except StoreError Database :=
  match findRepositoryRow db.repositories repoID with
  | none => Except.error (StoreError.storageError "repository row missing")
  | some localRepo =>
    match resolveOwner db localRepo newGitHubRepo with
    | Except.error e => Except.error e
    | Except.ok (existingGitHubRepo, ownerID, db1) =>
      Except.ok (writeGitHubRepository db1 localRepo newGitHubRepo
        existingGitHubRepo ownerID)

/-- `updateGitHubRepository`: the two precondition checks (`fatalError` on a
missing identifier — JavaScript falsy, so 0 counts as missing — and
`fatalError` on a missing GitHub-repository payload) run before the
transaction is opened; only when both pass is the transaction body
executed. -/
def updateGitHubRepository (db : Database) (repository : Repository) :
    Except StoreError Database :=
  if repository.id.getD 0 == 0 then
    Except.error (StoreError.contractError
      "updateGitHubRepository can only update a GitHub repository for a repository which has been added to the database.")
  else
    match repository.gitHubRepository with
    | none =>
      Except.error (StoreError.contractError
        "updateGitHubRepository can only update a GitHub repository. It cannot remove one.")
    | some newGitHubRepo =>
      updateGitHubRepositoryTransaction db (repository.id.getD 0) newGitHubRepo

/-- The first transaction of `addRepository`: append a local-repository row
with a fresh identifier and no remote linkage. -/
def insertRepositoryRow (db : Database) (path0 : String) : Database :=
  { db with
      repositories := db.repositories ++
        [{ id := db.nextRepositoryID, path := path0, gitHubRepositoryID := none }],
      nextRepositoryID := db.nextRepositoryID + 1 }

/-- `addRepository`: insert the local row (ignoring any caller-supplied
identifier and remote linkage), producing a copy carrying the new
identifier; when the input carries a GitHub repository, run the GitHub
upsert with that identifier as a second, independent transaction. -/
def addRepository (db : Database) (repo : Repository) :
    Except StoreError (Database × Repository) :=
  let db1 := insertRepositoryRow db repo.path
  let repoWithID := { repo with id := some db.nextRepositoryID }
  match repo.gitHubRepository with
  | some _ =>
    match updateGitHubRepository db1 repoWithID with
    | Except.error e => Except.error e
    | Except.ok db2 => Except.ok (db2, repoWithID)
  | none => Except.ok (db1, repoWithID)

/-- The loop body of `getRepositories`: inflate one local row, resolving the
linked GitHub-repository row and its owner row.  `none` models the
transaction throwing on a dangling reference. -/
def inflateRepository (db : Database) (row : DatabaseRepository) :
    Option Repository :=
  match row.gitHubRepositoryID with
  | none => some { path := row.path, gitHubRepository := none, id := some row.id }
  | some gid =>
    match findGitHubRepositoryRow db.gitHubRepositories gid with
    | none => none
    | some gh =>
      match findOwnerRow db.owners gh.ownerID with
      | none => none
      | some ow =>
        some { path := row.path,
               gitHubRepository := some
                 { name := gh.name,
                   owner := { login := ow.login, endpoint := ow.endpoint },
                   isPrivate := gh.isPrivate, fork := gh.fork,
                   htmlURL := gh.htmlURL },
               id := some row.id }

/-- Inflate a list of local rows in order. -/
def inflateRepositories (db : Database) :
    List DatabaseRepository → Option (List Repository)
  | [] => some []
  | row :: rest =>
    match inflateRepository db row, inflateRepositories db rest with
    | some r, some rs => some (r :: rs)
    | _, _ => none

/-- `getRepositories`: read every local row and inflate it. -/
def getRepositories (db : Database) : Option (List Repository) :=
  inflateRepositories db db.repositories

/-- One `updateGitHubRepository` call on the local repository with
identifier `i` and remote payload `p`; a failed call leaves the database
unchanged (the transaction rolls back). -/
def updateStep (db : Database) (i : Nat) (p : GitHubRepository) : Database :=
  match updateGitHubRepository db
      { path := "", gitHubRepository := some p, id := some i } with
  | Except.ok d2 => d2
  | Except.error _ => db

/-- Repeated `updateGitHubRepository` calls on the local repository with
identifier `i`, with the given remote payloads. -/
def applyGitHubUpdates (db : Database) (i : Nat) (ps : List GitHubRepository) :
    Database :=
  ps.foldl (fun d p => updateStep d i p) db

/-- Well-formedness of a database state: identifiers are positive, below
their auto-increment counters, pairwise distinct, and references resolve. -/
structure WellFormed (db : Database) : Prop where
  nextRepositoryIDPos : 1 ≤ db.nextRepositoryID
  nextGitHubRepositoryIDPos : 1 ≤ db.nextGitHubRepositoryID
  nextOwnerIDPos : 1 ≤ db.nextOwnerID
  repositoryIDs : (db.repositories.map (fun r => r.id)).Nodup
  repositoryIDsBound : ∀ r ∈ db.repositories, 1 ≤ r.id ∧ r.id < db.nextRepositoryID
  gitHubRepositoryIDs : (db.gitHubRepositories.map (fun g => g.id)).Nodup
  gitHubRepositoryIDsBound :
    ∀ g ∈ db.gitHubRepositories, 1 ≤ g.id ∧ g.id < db.nextGitHubRepositoryID
  ownerIDs : (db.owners.map (fun o => o.id)).Nodup
  ownerIDsBound : ∀ o ∈ db.owners, 1 ≤ o.id ∧ o.id < db.nextOwnerID
  gitHubRefs : ∀ r ∈ db.repositories, ∀ g, r.gitHubRepositoryID = some g →
    ∃ row ∈ db.gitHubRepositories, row.id = g
  ownerRefs : ∀ g ∈ db.gitHubRepositories, ∃ o ∈ db.owners, o.id = g.ownerID


/-- The empty catalog database with auto-increment counters at 1. -/
def emptyDatabase : Database :=
  { repositories := [], gitHubRepositories := [], owners := [],
    nextRepositoryID := 1, nextGitHubRepositoryID := 1, nextOwnerID := 1 }

theorem mem_setAdd_self (s : List String) (k : String) : k ∈ setAdd s k := by
  by_cases h : k ∈ s <;> simp [setAdd, h]

theorem setAdd_of_not_mem (s : List String) (k : String) (h : k ∉ s) :
    setAdd s k = s ++ [k] := by
  simp [setAdd, h]

/-- C1: splice with the previous head found at (first) position `i` of the
fetched batch keeps the old history verbatim after the truncated batch. -/
theorem c1_history_splice (s : GitStore) (batch : List Commit)
    (mostRecent : String) (rest : List String) (i : Nat)
    (hkey : s.requestsInFight.contains LoadingHistoryRequestKey = false)
    (hhist : s.history = mostRecent :: rest)
    (hidx : batch.findIdx (fun c => c.sha == mostRecent) = i)
    (hlt : i < batch.length) :
    (loadHistory s (some batch)).1.history =
      (batch.take i).map (fun c => c.sha) ++ s.history := by
  have h1 : LoadingHistoryRequestKey ∉ s.requestsInFight := by simpa using hkey
  have hlt2 : batch.findIdx (fun c => c.sha == mostRecent) < batch.length := by
    rw [hidx]; exact hlt
  have hex : ∃ x ∈ batch, x.sha = mostRecent := by
    simpa using List.findIdx_lt_length.mp hlt2
  simp [loadHistory, loadHistoryStart, loadHistoryResume, spliceHistory, h1,
    hhist, hex, hidx, hlt, List.map_take]

/-- Witness for C1 at a concrete store and batch. -/
theorem c1_history_splice_witness :
    (loadHistory
        { commits := [], history := ["c0", "c1"], requestsInFight := [] }
        (some [{ sha := "n0", summary := "", body := "", authorName := "",
                 authorEmail := "", authorDate := 0, parentSHAs := [] },
               { sha := "c0", summary := "", body := "", authorName := "",
                 authorEmail := "", authorDate := 0, parentSHAs := [] }])).1.history =
      ["n0", "c0", "c1"] := by
  have h := c1_history_splice
    { commits := [], history := ["c0", "c1"], requestsInFight := [] }
    [{ sha := "n0", summary := "", body := "", authorName := "",
       authorEmail := "", authorDate := 0, parentSHAs := [] },
     { sha := "c0", summary := "", body := "", authorName := "",
       authorEmail := "", authorDate := 0, parentSHAs := [] }]
    "c0" ["c1"] 1 (by decide) rfl (by decide) (by decide)
  simpa using h

/-- C2: when the fetched batch does not contain the previous head anywhere,
the previous history is discarded and the result is exactly the batch. -/
theorem c2_divergence_reset (s : GitStore) (batch : List Commit)
    (mostRecent : String) (rest : List String)
    (hkey : s.requestsInFight.contains LoadingHistoryRequestKey = false)
    (hhist : s.history = mostRecent :: rest)
    (habsent : ∀ c ∈ batch, c.sha ≠ mostRecent) :
    (loadHistory s (some batch)).1.history = batch.map (fun c => c.sha) := by
  have h1 : LoadingHistoryRequestKey ∉ s.requestsInFight := by simpa using hkey
  have hnex : ¬ ∃ x ∈ batch, x.sha = mostRecent := by
    rintro ⟨x, hx, hsha⟩
    exact habsent x hx hsha
  simp [loadHistory, loadHistoryStart, loadHistoryResume, spliceHistory, h1,
    hhist, hnex]

/-- Witness for C2 at a concrete store and batch. -/
theorem c2_divergence_reset_witness :
    (loadHistory
        { commits := [], history := ["c0"], requestsInFight := [] }
        (some [{ sha := "n0", summary := "", body := "", authorName := "",
                 authorEmail := "", authorDate := 0, parentSHAs := [] }])).1.history =
      ["n0"] := by
  have h := c2_divergence_reset
    { commits := [], history := ["c0"], requestsInFight := [] }
    [{ sha := "n0", summary := "", body := "", authorName := "",
       authorEmail := "", authorDate := 0, parentSHAs := [] }]
    "c0" [] (by decide) rfl (by decide)
  simpa using h

/-- C6: a `loadHistory` call issued while a `"history"`-keyed request is in
flight is a no-op (same state, no events), and the interleaved pair of calls
produces exactly one Git-log invocation and exactly one pair of
(new-commits, update) notifications, with no error. -/
theorem c6_load_deduplication (s : GitStore) (batch : List Commit)
    (fetch2 : Option (List Commit))
    (hkey : s.requestsInFight.contains LoadingHistoryRequestKey = false) :
    (∀ t : GitStore, t.requestsInFight.contains LoadingHistoryRequestKey = true →
      ∀ fetch, loadHistory t fetch = (t, [])) ∧
    (loadHistoryPair s (some batch) fetch2).2.countP isGitLogCall = 1 ∧
    (loadHistoryPair s (some batch) fetch2).2.countP isNewCommitsLoaded = 1 ∧
    (loadHistoryPair s (some batch) fetch2).2.countP isDidUpdate = 1 ∧
    (loadHistoryPair s (some batch) fetch2).2.countP isDidError = 0 := by
  have h1 : LoadingHistoryRequestKey ∉ s.requestsInFight := by simpa using hkey
  have hnoop : ∀ t : GitStore,
      t.requestsInFight.contains LoadingHistoryRequestKey = true →
      ∀ fetch, loadHistory t fetch = (t, []) := by
    intro t ht fetch
    have ht2 : LoadingHistoryRequestKey ∈ t.requestsInFight := by simpa using ht
    simp [loadHistory, loadHistoryStart, ht2]
  refine ⟨hnoop, ?_⟩
  have hmem : LoadingHistoryRequestKey ∈ setAdd s.requestsInFight LoadingHistoryRequestKey :=
    mem_setAdd_self _ _
  simp only [loadHistoryPair, loadHistoryStart, loadHistory, loadHistoryResume]
  simp [h1, hmem, isGitLogCall, isNewCommitsLoaded, isDidUpdate, isDidError]

/-- Witness for C6 at a concrete store and batch. -/
theorem c6_load_deduplication_witness :
    (∀ t : GitStore, t.requestsInFight.contains LoadingHistoryRequestKey = true →
      ∀ fetch, loadHistory t fetch = (t, [])) ∧
    (loadHistoryPair { commits := [], history := [], requestsInFight := [] }
        (some [{ sha := "a", summary := "", body := "", authorName := "",
                 authorEmail := "", authorDate := 0, parentSHAs := [] }])
        none).2.countP isGitLogCall = 1 ∧
    (loadHistoryPair { commits := [], history := [], requestsInFight := [] }
        (some [{ sha := "a", summary := "", body := "", authorName := "",
                 authorEmail := "", authorDate := 0, parentSHAs := [] }])
        none).2.countP isNewCommitsLoaded = 1 ∧
    (loadHistoryPair { commits := [], history := [], requestsInFight := [] }
        (some [{ sha := "a", summary := "", body := "", authorName := "",
                 authorEmail := "", authorDate := 0, parentSHAs := [] }])
        none).2.countP isDidUpdate = 1 ∧
    (loadHistoryPair { commits := [], history := [], requestsInFight := [] }
        (some [{ sha := "a", summary := "", body := "", authorName := "",
                 authorEmail := "", authorDate := 0, parentSHAs := [] }])
        none).2.countP isDidError = 0 :=
  c6_load_deduplication
    { commits := [], history := [], requestsInFight := [] }
    [{ sha := "a", summary := "", body := "", authorName := "",
       authorEmail := "", authorDate := 0, parentSHAs := [] }]
    none (by decide)

/-- C7: when the fetch of `loadNextHistoryBatch` fails, `history` and
`commits` are unchanged from before the call and the error channel fires
exactly once (the failure is absorbed by `performFailableOperation`; the
model is a total function, so no fault propagates). -/
theorem c7_batch_failure_isolation (s : GitStore) (lastSHA : String)
    (hkey : s.requestsInFight.contains LoadingHistoryRequestKey = false)
    (hlast : s.history.getLast? = some lastSHA)
    (hbatchkey : s.requestsInFight.contains ("history/" ++ lastSHA) = false) :
    (loadNextHistoryBatch s none).1.history = s.history ∧
    (loadNextHistoryBatch s none).1.commits = s.commits ∧
    (loadNextHistoryBatch s none).2.countP isDidError = 1 := by
  have h1 : LoadingHistoryRequestKey ∉ s.requestsInFight := by simpa using hkey
  have h2 : ("history/" ++ lastSHA) ∉ s.requestsInFight := by simpa using hbatchkey
  simp [loadNextHistoryBatch, h1, h2, hlast, isDidError, isGitLogCall]

/-- Witness for C7 at a concrete store. -/
theorem c7_batch_failure_isolation_witness :
    (loadNextHistoryBatch
        { commits := [], history := ["c0"], requestsInFight := [] } none).1.history = ["c0"] ∧
    (loadNextHistoryBatch
        { commits := [], history := ["c0"], requestsInFight := [] } none).1.commits = [] ∧
    (loadNextHistoryBatch
        { commits := [], history := ["c0"], requestsInFight := [] } none).2.countP isDidError = 1 :=
  c7_batch_failure_isolation
    { commits := [], history := ["c0"], requestsInFight := [] }
    "c0" (by decide) (by decide) (by decide)

/-- C8 counterexample: on a failed fetch, `loadHistory` does mutate the
in-flight request set — the `"history"` key added at the start of the call
is left behind. -/
theorem c8_counterexample :
    (loadHistory { commits := [], history := ["c0"], requestsInFight := [] }
        none).1.requestsInFight ≠
      GitStore.requestsInFight
        { commits := [], history := ["c0"], requestsInFight := [] } := by
  decide

/-- C8 (amended): when the fetch of `loadHistory` fails, `history` and
`commits` are unchanged and the error channel fires exactly once, but the
in-flight set is not restored: the `"history"` key remains in it. -/
theorem c8_load_failure_isolation (s : GitStore)
    (hkey : s.requestsInFight.contains LoadingHistoryRequestKey = false) :
    (loadHistory s none).1.history = s.history ∧
    (loadHistory s none).1.commits = s.commits ∧
    (loadHistory s none).2.countP isDidError = 1 ∧
    (loadHistory s none).1.requestsInFight =
      s.requestsInFight ++ [LoadingHistoryRequestKey] := by
  have h1 : LoadingHistoryRequestKey ∉ s.requestsInFight := by simpa using hkey
  simp [loadHistory, loadHistoryStart, loadHistoryResume,
    setAdd_of_not_mem _ _ h1, h1, isDidError, isGitLogCall]

/-- Witness for C8 (amended) at a concrete store. -/
theorem c8_load_failure_isolation_witness :
    (loadHistory { commits := [], history := ["c0"], requestsInFight := [] }
        none).1.history = ["c0"] ∧
    (loadHistory { commits := [], history := ["c0"], requestsInFight := [] }
        none).1.commits = [] ∧
    (loadHistory { commits := [], history := ["c0"], requestsInFight := [] }
        none).2.countP isDidError = 1 ∧
    (loadHistory { commits := [], history := ["c0"], requestsInFight := [] }
        none).1.requestsInFight = [] ++ [LoadingHistoryRequestKey] :=
  c8_load_failure_isolation
    { commits := [], history := ["c0"], requestsInFight := [] } (by decide)

/-- C10: when the fetch throws, the request key added at the start of the
call is never removed.  After a failed `loadHistory`, the `"history"` key
stays in flight and every subsequent `loadHistory` or
`loadNextHistoryBatch` call returns immediately as a no-op (no state
change, no Git invocation, no notification).  After a failed
`loadNextHistoryBatch`, the `history/<lastSHA>` key stays in flight and
every subsequent `loadNextHistoryBatch` call likewise returns immediately
as a no-op. -/
theorem c10_leaked_request_keys (s : GitStore) :
    (s.requestsInFight.contains LoadingHistoryRequestKey = false →
      (loadHistory s none).1.requestsInFight.contains LoadingHistoryRequestKey = true ∧
      (∀ fetch, loadHistory (loadHistory s none).1 fetch = ((loadHistory s none).1, [])) ∧
      (∀ fetch, loadNextHistoryBatch (loadHistory s none).1 fetch = ((loadHistory s none).1, []))) ∧
    (∀ lastSHA, s.requestsInFight.contains LoadingHistoryRequestKey = false →
      s.history.getLast? = some lastSHA →
      s.requestsInFight.contains ("history/" ++ lastSHA) = false →
      (loadNextHistoryBatch s none).1.requestsInFight.contains ("history/" ++ lastSHA) = true ∧
      (∀ fetch, loadNextHistoryBatch (loadNextHistoryBatch s none).1 fetch =
        ((loadNextHistoryBatch s none).1, []))) := by
  constructor
  · intro hkey
    have h1 : LoadingHistoryRequestKey ∉ s.requestsInFight := by simpa using hkey
    have e1 : (loadHistory s none).1 =
        { s with requestsInFight := s.requestsInFight ++ [LoadingHistoryRequestKey] } := by
      simp [loadHistory, loadHistoryStart, loadHistoryResume, h1,
        setAdd_of_not_mem _ _ h1]
    refine ⟨?_, ?_, ?_⟩
    · rw [e1]; simp
    · intro fetch; rw [e1]; simp [loadHistory, loadHistoryStart]
    · intro fetch; rw [e1]; simp [loadNextHistoryBatch]
  · intro lastSHA hkey hlast hbatchkey
    have h1 : LoadingHistoryRequestKey ∉ s.requestsInFight := by simpa using hkey
    have h2 : ("history/" ++ lastSHA) ∉ s.requestsInFight := by simpa using hbatchkey
    have e1 : (loadNextHistoryBatch s none).1 =
        { s with requestsInFight := s.requestsInFight ++ ["history/" ++ lastSHA] } := by
      simp [loadNextHistoryBatch, h1, h2, hlast, setAdd_of_not_mem _ _ h2]
    have hne : LoadingHistoryRequestKey ≠ "history/" ++ lastSHA := by
      intro h
      have hlen := congrArg String.length h
      rw [String.length_append] at hlen
      have e7 : (LoadingHistoryRequestKey : String).length = 7 := by decide
      have e8 : ("history/" : String).length = 8 := by decide
      rw [e7, e8] at hlen
      omega
    refine ⟨?_, ?_⟩
    · rw [e1]; simp
    · intro fetch
      rw [e1]
      simp [loadNextHistoryBatch, h1, hne, hlast]

/-- Witness for C10 at a concrete store. -/
theorem c10_leaked_request_keys_witness :
    (GitStore.requestsInFight
        { commits := [], history := ["c0"], requestsInFight := [] }).contains
      LoadingHistoryRequestKey = false ∧
    ((loadHistory { commits := [], history := ["c0"], requestsInFight := [] }
        none).1.requestsInFight.contains LoadingHistoryRequestKey = true ∧
      (∀ fetch, loadHistory
          (loadHistory { commits := [], history := ["c0"], requestsInFight := [] } none).1 fetch =
        ((loadHistory { commits := [], history := ["c0"], requestsInFight := [] } none).1, [])) ∧
      (∀ fetch, loadNextHistoryBatch
          (loadHistory { commits := [], history := ["c0"], requestsInFight := [] } none).1 fetch =
        ((loadHistory { commits := [], history := ["c0"], requestsInFight := [] } none).1, []))) :=
  ⟨by decide,
    (c10_leaked_request_keys
      { commits := [], history := ["c0"], requestsInFight := [] }).1 (by decide)⟩

theorem resolveOwner_ne_error (db : Database) (lr : DatabaseRepository)
    (p : GitHubRepository) (hwf : WellFormed db) (hmem : lr ∈ db.repositories)
    (e : StoreError) (h : resolveOwner db lr p = Except.error e) : False := by
  cases hg : lr.gitHubRepositoryID with
  | none =>
    cases ho : findOwnerByLogin db.owners p.owner.login with
    | none => simp [resolveOwner, hg, ho] at h
    | some o => simp [resolveOwner, hg, ho] at h
  | some g =>
    obtain ⟨row, hrow, hrowid⟩ := hwf.gitHubRefs lr hmem g hg
    have hfind : (findGitHubRepositoryRow db.gitHubRepositories g).isSome := by
      rw [findGitHubRepositoryRow, List.find?_isSome]
      exact ⟨row, hrow, by simp [hrowid]⟩
    obtain ⟨ex, hex⟩ := Option.isSome_iff_exists.mp hfind
    have hexmem : ex ∈ db.gitHubRepositories := List.mem_of_find?_eq_some hex
    obtain ⟨o, homem, hoid⟩ := hwf.ownerRefs ex hexmem
    have hofind : (findOwnerRow db.owners ex.ownerID).isSome := by
      rw [findOwnerRow, List.find?_isSome]
      exact ⟨o, homem, by simp [hoid]⟩
    obtain ⟨ow, how⟩ := Option.isSome_iff_exists.mp hofind
    simp [resolveOwner, hg, hex, how] at h

/-- C9: under a well-formed database, `updateGitHubRepository` fails with a
fatal contract error (`fatalError`) exactly when the input local repository
has no assigned identifier (JavaScript-falsy) or carries no
GitHub-repository payload; both checks run before the transaction is
opened, so no transaction is performed in either case. -/
theorem c9_contract_errors (db : Database) (repository : Repository)
    (hwf : WellFormed db) :
    (∃ msg, updateGitHubRepository db repository =
      Except.error (StoreError.contractError msg)) ↔
    (repository.id.getD 0 = 0 ∨ repository.gitHubRepository = none) := by
  constructor
  · rintro ⟨msg, hmsg⟩
    by_contra hno
    push_neg at hno
    obtain ⟨hid, hgh⟩ := hno
    obtain ⟨p, hp⟩ : ∃ p, repository.gitHubRepository = some p := by
      cases h : repository.gitHubRepository with
      | none => exact absurd h hgh
      | some p => exact ⟨p, rfl⟩
    have hid2 : (repository.id.getD 0 == 0) = false := by simpa using hid
    rw [updateGitHubRepository, hid2] at hmsg
    simp only [Bool.false_eq_true, if_false, hp] at hmsg
    cases hfind : findRepositoryRow db.repositories (repository.id.getD 0) with
    | none =>
      rw [updateGitHubRepositoryTransaction, hfind] at hmsg
      simp at hmsg
    | some lr =>
      rw [updateGitHubRepositoryTransaction, hfind] at hmsg
      cases hres : resolveOwner db lr p with
      | error e =>
        exact resolveOwner_ne_error db lr p hwf
          (List.mem_of_find?_eq_some hfind) e hres
      | ok out =>
        obtain ⟨ex, oid, db1⟩ := out
        simp [hres] at hmsg
  · intro h
    rcases h with hid | hgh
    · refine ⟨"updateGitHubRepository can only update a GitHub repository for a repository which has been added to the database.", ?_⟩
      have hid2 : (repository.id.getD 0 == 0) = true := by simpa using hid
      rw [updateGitHubRepository, hid2]
      simp
    · by_cases hid : repository.id.getD 0 = 0
      · refine ⟨"updateGitHubRepository can only update a GitHub repository for a repository which has been added to the database.", ?_⟩
        have hid2 : (repository.id.getD 0 == 0) = true := by simpa using hid
        rw [updateGitHubRepository, hid2]
        simp
      · refine ⟨"updateGitHubRepository can only update a GitHub repository. It cannot remove one.", ?_⟩
        have hid2 : (repository.id.getD 0 == 0) = false := by simpa using hid
        rw [updateGitHubRepository, hid2]
        simp [hgh]

/-- Witness for C9: on the empty catalog, updating a repository that was
never added (no identifier, no payload) is a contract error. -/
theorem c9_contract_errors_witness :
    ∃ msg, updateGitHubRepository emptyDatabase
      { path := "/some/cool/path", gitHubRepository := none, id := none } =
        Except.error (StoreError.contractError msg) :=
  (c9_contract_errors emptyDatabase
    { path := "/some/cool/path", gitHubRepository := none, id := none }
    (by constructor <;> decide)).mpr (Or.inr rfl)

theorem findRepositoryRow_map_set (rows : List DatabaseRepository)
    (tid gid i : Nat) :
    findRepositoryRow (rows.map (fun r =>
      if r.id == tid then { r with gitHubRepositoryID := some gid } else r)) i =
    (findRepositoryRow rows i).map (fun r =>
      if r.id == tid then { r with gitHubRepositoryID := some gid } else r) := by
  induction rows with
  | nil => rfl
  | cons a rows ih =>
    simp only [findRepositoryRow] at ih ⊢
    rw [List.map_cons]
    by_cases h : (a.id == i) = true
    · have hid : ((if a.id == tid then { a with gitHubRepositoryID := some gid }
          else a).id == i) = true := by
        by_cases h2 : (a.id == tid) = true <;> simp_all
      rw [List.find?_cons, List.find?_cons, h, hid]
      rfl
    · have hf : (a.id == i) = false := by simpa using h
      have hid : ((if a.id == tid then { a with gitHubRepositoryID := some gid }
          else a).id == i) = false := by
        by_cases h2 : (a.id == tid) = true <;> simp_all
      rw [List.find?_cons, List.find?_cons, hf, hid]
      exact ih

theorem writeGitHubRepository_repositories (db : Database)
    (lr : DatabaseRepository) (p : GitHubRepository)
    (ex : Option DatabaseGitHubRepository) (oid : Nat) :
    (writeGitHubRepository db lr p ex oid).repositories =
      db.repositories.map (fun r =>
        if r.id == lr.id then
          { r with gitHubRepositoryID := some (ex.elim db.nextGitHubRepositoryID (fun e => e.id)) }
        else r) := by
  cases ex <;> simp [writeGitHubRepository]

theorem resolveOwner_ok_spec (db : Database) (lr : DatabaseRepository)
    (p : GitHubRepository) (ex : Option DatabaseGitHubRepository) (oid : Nat)
    (db1 : Database)
    (h : resolveOwner db lr p = Except.ok (ex, oid, db1)) :
    db1.repositories = db.repositories ∧
    db1.gitHubRepositories = db.gitHubRepositories ∧
    (∀ g, lr.gitHubRepositoryID = some g → ∃ e, ex = some e ∧ e.id = g) := by
  cases hg : lr.gitHubRepositoryID with
  | none =>
    cases ho : findOwnerByLogin db.owners p.owner.login with
    | none =>
      simp [resolveOwner, hg, ho] at h
      obtain ⟨hex, hoid, hdb⟩ := h
      subst hex hdb
      simp [hg]
    | some o =>
      simp [resolveOwner, hg, ho] at h
      obtain ⟨hex, hoid, hdb⟩ := h
      subst hex hdb
      simp [hg]
  | some g0 =>
    cases hge : findGitHubRepositoryRow db.gitHubRepositories g0 with
    | none => simp [resolveOwner, hg, hge] at h
    | some e =>
      cases hoe : findOwnerRow db.owners e.ownerID with
      | none => simp [resolveOwner, hg, hge, hoe] at h
      | some o =>
        simp [resolveOwner, hg, hge, hoe] at h
        obtain ⟨hex, hoid, hdb⟩ := h
        subst hex hdb
        have hpred := List.find?_some hge
        refine ⟨rfl, rfl, ?_⟩
        intro g hgeq
        cases hgeq
        exact ⟨e, rfl, by simpa using hpred⟩

theorem update_ok_preserves_row (db : Database) (rep : Repository) (i : Nat)
    (hrepid : rep.id = some i) (db2 : Database)
    (hok : updateGitHubRepository db rep = Except.ok db2)
    (row : DatabaseRepository)
    (h : findRepositoryRow db.repositories i = some row) :
    ∃ row2, findRepositoryRow db2.repositories i = some row2 ∧
      row2.id = row.id ∧ row2.path = row.path ∧
      (∀ g, row.gitHubRepositoryID = some g →
        row2.gitHubRepositoryID = some g) := by
  rw [updateGitHubRepository, hrepid] at hok
  simp only [Option.getD_some] at hok
  by_cases hi0 : (i == 0) = true
  · simp [hi0] at hok
  · have hi0f : (i == 0) = false := by simpa using hi0
    rw [hi0f] at hok
    simp only [Bool.false_eq_true, if_false] at hok
    cases hgh : rep.gitHubRepository with
    | none => rw [hgh] at hok; simp at hok
    | some p =>
      simp only [hgh] at hok
      rw [updateGitHubRepositoryTransaction.eq_def] at hok
      simp only [h] at hok
      cases hres : resolveOwner db row p with
      | error e => simp [hres] at hok
      | ok out =>
        obtain ⟨ex, oid, dbr⟩ := out
        simp only [hres, Except.ok.injEq] at hok
        obtain ⟨hrepos, hghs, hexspec⟩ :=
          resolveOwner_ok_spec db row p ex oid dbr hres
        rw [← hok, writeGitHubRepository_repositories, hrepos,
          findRepositoryRow_map_set, h]
        refine ⟨_, rfl, ?_, ?_, ?_⟩
        · simp
        · simp
        · intro g hg
          obtain ⟨e, hexeq, heid⟩ := hexspec g hg
          subst hexeq
          simp [heid]

theorem updateStep_preserves_row (db : Database) (i : Nat)
    (p : GitHubRepository) (row : DatabaseRepository)
    (h : findRepositoryRow db.repositories i = some row) :
    ∃ row2, findRepositoryRow (updateStep db i p).repositories i = some row2 ∧
      row2.id = row.id ∧ row2.path = row.path ∧
      (∀ g, row.gitHubRepositoryID = some g →
        row2.gitHubRepositoryID = some g) := by
  rw [updateStep]
  cases hup : updateGitHubRepository db
      { path := "", gitHubRepository := some p, id := some i } with
  | error e => exact ⟨row, h, rfl, rfl, fun g hg => hg⟩
  | ok d2 => exact update_ok_preserves_row db _ i rfl d2 hup row h

theorem applyGitHubUpdates_preserves_row (db : Database) (i : Nat)
    (ps : List GitHubRepository) (row : DatabaseRepository)
    (h : findRepositoryRow db.repositories i = some row) :
    ∃ row2, findRepositoryRow (applyGitHubUpdates db i ps).repositories i = some row2 ∧
      row2.id = row.id ∧ row2.path = row.path ∧
      (∀ g, row.gitHubRepositoryID = some g →
        row2.gitHubRepositoryID = some g) := by
  induction ps generalizing db row with
  | nil => exact ⟨row, h, rfl, rfl, fun g hg => hg⟩
  | cons p ps ih =>
    obtain ⟨row1, h1, hid1, hpath1, hgh1⟩ := updateStep_preserves_row db i p row h
    obtain ⟨row2, h2, hid2, hpath2, hgh2⟩ := ih (updateStep db i p) row1 h1
    exact ⟨row2, h2, hid2.trans hid1, hpath2.trans hpath1,
      fun g hg => hgh2 g (hgh1 g hg)⟩

theorem findRepositoryRow_insert (db0 : Database) (hwf : WellFormed db0)
    (path0 : String) :
    findRepositoryRow (insertRepositoryRow db0 path0).repositories
        db0.nextRepositoryID =
      some { id := db0.nextRepositoryID, path := path0,
             gitHubRepositoryID := none } := by
  have hnone : db0.repositories.find? (fun r => r.id == db0.nextRepositoryID) = none := by
    rw [List.find?_eq_none]
    intro r hr
    have hb := (hwf.repositoryIDsBound r hr).2
    simp only [beq_iff_eq]
    omega
  rw [insertRepositoryRow, findRepositoryRow]
  simp [List.find?_append, hnone]

theorem addRepository_ok_spec (db0 : Database) (x : Repository)
    (db1 : Database) (r : Repository)
    (hadd : addRepository db0 x = Except.ok (db1, r)) :
    r = { x with id := some db0.nextRepositoryID } ∧
    ((x.gitHubRepository = none ∧ db1 = insertRepositoryRow db0 x.path) ∨
     (∃ p, x.gitHubRepository = some p ∧
       updateGitHubRepository (insertRepositoryRow db0 x.path)
         { x with id := some db0.nextRepositoryID } = Except.ok db1)) := by
  rw [addRepository] at hadd
  cases hgh : x.gitHubRepository with
  | none =>
    simp only [hgh, Except.ok.injEq, Prod.mk.injEq] at hadd
    obtain ⟨hdb, hr⟩ := hadd
    exact ⟨hr.symm, Or.inl ⟨rfl, hdb.symm⟩⟩
  | some p =>
    simp only [hgh] at hadd
    cases hup : updateGitHubRepository (insertRepositoryRow db0 x.path)
        { path := x.path, gitHubRepository := some p,
          id := some db0.nextRepositoryID } with
    | error e => rw [hup] at hadd; simp at hadd
    | ok db2 =>
      simp only [hup, Except.ok.injEq, Prod.mk.injEq] at hadd
      obtain ⟨hdb, hr⟩ := hadd
      refine ⟨hr.symm, Or.inr ⟨p, rfl, ?_⟩⟩
      rw [hdb]

/-- C3: for a repository added via `addRepository`, repeated
`updateGitHubRepository` calls with arbitrary remote payloads never change
the local row's identifier or path, and once the local row references a
GitHub-repository row, every later call keeps that same reference
(identifier stability). -/
theorem c3_identifier_stability (db0 : Database) (x : Repository)
    (db1 : Database) (r : Repository) (hwf : WellFormed db0)
    (hadd : addRepository db0 x = Except.ok (db1, r)) (i : Nat)
    (hi : r.id = some i) (ps qs : List GitHubRepository) :
    (∃ rowB, findRepositoryRow
        (applyGitHubUpdates (applyGitHubUpdates db1 i ps) i qs).repositories i =
          some rowB ∧
      rowB.id = i ∧ rowB.path = x.path) ∧
    (∀ g, (findRepositoryRow (applyGitHubUpdates db1 i ps).repositories i).bind
        (fun row => row.gitHubRepositoryID) = some g →
      (findRepositoryRow
        (applyGitHubUpdates (applyGitHubUpdates db1 i ps) i qs).repositories i).bind
        (fun row => row.gitHubRepositoryID) = some g) := by
  obtain ⟨hr, hrest⟩ := addRepository_ok_spec db0 x db1 r hadd
  have hi2 : i = db0.nextRepositoryID := by
    rw [hr] at hi
    simpa using hi.symm
  subst hi2
  have hbase : ∃ row0,
      findRepositoryRow db1.repositories db0.nextRepositoryID = some row0 ∧
      row0.id = db0.nextRepositoryID ∧ row0.path = x.path := by
    rcases hrest with ⟨hgh, hdb⟩ | ⟨p, hgh, hup⟩
    · subst hdb
      exact ⟨_, findRepositoryRow_insert db0 hwf x.path, rfl, rfl⟩
    · obtain ⟨row0, h0, hid0, hpath0, _⟩ :=
        update_ok_preserves_row (insertRepositoryRow db0 x.path)
          { x with id := some db0.nextRepositoryID } db0.nextRepositoryID rfl
          db1 hup _ (findRepositoryRow_insert db0 hwf x.path)
      exact ⟨row0, h0, by simpa using hid0, by simpa using hpath0⟩
  obtain ⟨row0, h0, hid0, hpath0⟩ := hbase
  obtain ⟨rowA, hA, hidA, hpathA, hghA⟩ :=
    applyGitHubUpdates_preserves_row db1 db0.nextRepositoryID ps row0 h0
  obtain ⟨rowB, hB, hidB, hpathB, hghB⟩ :=
    applyGitHubUpdates_preserves_row (applyGitHubUpdates db1 db0.nextRepositoryID ps)
      db0.nextRepositoryID qs rowA hA
  constructor
  · exact ⟨rowB, hB, by rw [hidB, hidA, hid0], by rw [hpathB, hpathA, hpath0]⟩
  · intro g hg
    rw [hA] at hg
    have hga : rowA.gitHubRepositoryID = some g := by simpa using hg
    rw [hB]
    simpa using hghB g hga

/-- Witness for C3 on the empty catalog with no payloads. -/
theorem c3_identifier_stability_witness :
    (∃ rowB, findRepositoryRow
        (applyGitHubUpdates (applyGitHubUpdates
          (insertRepositoryRow emptyDatabase "/p") 1 []) 1 []).repositories 1 =
          some rowB ∧
      rowB.id = 1 ∧ rowB.path = "/p") ∧
    (∀ g, (findRepositoryRow
        (applyGitHubUpdates (insertRepositoryRow emptyDatabase "/p") 1 []).repositories 1).bind
        (fun row => row.gitHubRepositoryID) = some g →
      (findRepositoryRow
        (applyGitHubUpdates (applyGitHubUpdates
          (insertRepositoryRow emptyDatabase "/p") 1 []) 1 []).repositories 1).bind
        (fun row => row.gitHubRepositoryID) = some g) :=
  c3_identifier_stability emptyDatabase
    { path := "/p", gitHubRepository := none, id := none }
    (insertRepositoryRow emptyDatabase "/p")
    { path := "/p", gitHubRepository := none, id := some 1 }
    (by constructor <;> decide)
    (by rfl) 1 rfl [] []

theorem update_unlinked_spec (db : Database) (rep : Repository) (i : Nat)
    (p : GitHubRepository) (hid : rep.id = some i) (hi0 : i ≠ 0)
    (hgh : rep.gitHubRepository = some p) (rowI : DatabaseRepository)
    (hfind : findRepositoryRow db.repositories i = some rowI)
    (hnone : rowI.gitHubRepositoryID = none) :
    ∃ (oid : Nat) (ow : DatabaseOwner) (db1 : Database),
      updateGitHubRepository db rep = Except.ok db1 ∧
      ((findOwnerByLogin db.owners p.owner.login = some ow ∧ oid = ow.id ∧
          db1.owners = db.owners) ∨
       (findOwnerByLogin db.owners p.owner.login = none ∧
          ow = { id := db.nextOwnerID, login := p.owner.login,
                 endpoint := p.owner.endpoint } ∧
          oid = db.nextOwnerID ∧ db1.owners = db.owners ++ [ow])) ∧
      db1.gitHubRepositories = db.gitHubRepositories ++
        [{ id := db.nextGitHubRepositoryID, name := p.name, ownerID := oid,
           isPrivate := p.isPrivate, fork := p.fork, htmlURL := p.htmlURL }] ∧
      db1.nextGitHubRepositoryID = db.nextGitHubRepositoryID + 1 ∧
      db1.repositories = db.repositories.map (fun r =>
        if r.id == rowI.id then
          { r with gitHubRepositoryID := some db.nextGitHubRepositoryID }
        else r) := by
  have hi0f : (i == 0) = false := by simpa using hi0
  have hstep : updateGitHubRepository db rep =
      updateGitHubRepositoryTransaction db i p := by
    rw [updateGitHubRepository, hid]
    simp only [Option.getD_some, hi0f, Bool.false_eq_true, if_false, hgh]
  cases ho : findOwnerByLogin db.owners p.owner.login with
  | some ow =>
    have hres : resolveOwner db rowI p = Except.ok (none, ow.id, db) := by
      simp [resolveOwner, hnone, ho]
    have htrans : updateGitHubRepositoryTransaction db i p =
        Except.ok (writeGitHubRepository db rowI p none ow.id) := by
      rw [updateGitHubRepositoryTransaction.eq_def]
      simp only [hfind, hres]
    refine ⟨ow.id, ow, writeGitHubRepository db rowI p none ow.id,
      by rw [hstep, htrans], Or.inl ⟨rfl, rfl, ?_⟩, ?_, ?_, ?_⟩
    · simp [writeGitHubRepository]
    · simp [writeGitHubRepository]
    · simp [writeGitHubRepository]
    · rw [writeGitHubRepository_repositories]
      simp
  | none =>
    have hres : resolveOwner db rowI p = Except.ok (none, db.nextOwnerID,
        { db with
            owners := db.owners ++
              [{ id := db.nextOwnerID, login := p.owner.login,
                 endpoint := p.owner.endpoint }],
            nextOwnerID := db.nextOwnerID + 1 }) := by
      simp [resolveOwner, hnone, ho]
    have htrans : updateGitHubRepositoryTransaction db i p =
        Except.ok (writeGitHubRepository
          { db with
              owners := db.owners ++
                [{ id := db.nextOwnerID, login := p.owner.login,
                   endpoint := p.owner.endpoint }],
              nextOwnerID := db.nextOwnerID + 1 }
          rowI p none db.nextOwnerID) := by
      rw [updateGitHubRepositoryTransaction.eq_def]
      simp only [hfind, hres]
    refine ⟨db.nextOwnerID,
      { id := db.nextOwnerID, login := p.owner.login,
        endpoint := p.owner.endpoint },
      _, by rw [hstep, htrans], Or.inr ⟨rfl, rfl, rfl, ?_⟩, ?_, ?_, ?_⟩
    · simp [writeGitHubRepository]
    · simp [writeGitHubRepository]
    · simp [writeGitHubRepository]
    · rw [writeGitHubRepository_repositories]
      simp

/-- C4: two remote repositories whose owners share the same login up to
case, upserted in sequence onto two previously unlinked local repositories,
end up referencing the same single owner row: both GitHub-repository rows
carry the same `ownerID`, the second call adds no owner row, and the first
call adds one only when no case-insensitive match already existed.  The
quantification over arbitrary endpoints reflects that the lookup is scoped
only by login. -/
theorem c4_owner_reuse (db0 : Database) (hwf : WellFormed db0)
    (r1 r2 : Repository) (p1 p2 : GitHubRepository) (i j : Nat)
    (h1id : r1.id = some i) (h1gh : r1.gitHubRepository = some p1)
    (h2id : r2.id = some j) (h2gh : r2.gitHubRepository = some p2)
    (hi0 : i ≠ 0) (hj0 : j ≠ 0) (hij : i ≠ j)
    (rowI rowJ : DatabaseRepository)
    (hfi : findRepositoryRow db0.repositories i = some rowI)
    (hfj : findRepositoryRow db0.repositories j = some rowJ)
    (hni : rowI.gitHubRepositoryID = none)
    (hnj : rowJ.gitHubRepositoryID = none)
    (hlogin : toLowerStr p1.owner.login = toLowerStr p2.owner.login) :
    ∃ db1 db2,
      updateGitHubRepository db0 r1 = Except.ok db1 ∧
      updateGitHubRepository db1 r2 = Except.ok db2 ∧
      db2.owners = db1.owners ∧
      (findOwnerByLogin db0.owners p1.owner.login = none →
        db1.owners = db0.owners ++
          [{ id := db0.nextOwnerID, login := p1.owner.login,
             endpoint := p1.owner.endpoint }]) ∧
      (∀ ow, findOwnerByLogin db0.owners p1.owner.login = some ow →
        db1.owners = db0.owners) ∧
      ∃ (oid : Nat) (rI rJ : DatabaseRepository)
        (ghI ghJ : DatabaseGitHubRepository) (gI gJ : Nat),
        findRepositoryRow db2.repositories i = some rI ∧
        rI.gitHubRepositoryID = some gI ∧
        findGitHubRepositoryRow db2.gitHubRepositories gI = some ghI ∧
        ghI.ownerID = oid ∧
        findRepositoryRow db2.repositories j = some rJ ∧
        rJ.gitHubRepositoryID = some gJ ∧
        findGitHubRepositoryRow db2.gitHubRepositories gJ = some ghJ ∧
        ghJ.ownerID = oid := by
  have hrowIid : rowI.id = i := by simpa using List.find?_some hfi
  have hrowJid : rowJ.id = j := by simpa using List.find?_some hfj
  obtain ⟨oid1, ow1, db1, hok1, hres1, hgh1, hng1, hrepos1⟩ :=
    update_unlinked_spec db0 r1 i p1 h1id hi0 h1gh rowI hfi hni
  have hfj1 : findRepositoryRow db1.repositories j = some rowJ := by
    rw [hrepos1, hrowIid, findRepositoryRow_map_set, hfj]
    have hf : rowJ.id ≠ i := by
      rw [hrowJid]
      exact fun h => hij h.symm
    simp [hf]
  obtain ⟨oid2, ow2, db2, hok2, hres2, hgh2, hng2, hrepos2⟩ :=
    update_unlinked_spec db1 r2 j p2 h2id hj0 h2gh rowJ hfj1 hnj
  have hpredeq : findOwnerByLogin db1.owners p2.owner.login =
      findOwnerByLogin db1.owners p1.owner.login := by
    rw [findOwnerByLogin, findOwnerByLogin]
    congr 1
    funext o
    rw [hlogin]
  have howmain : findOwnerByLogin db1.owners p1.owner.login = some ow1 ∧
      oid1 = ow1.id := by
    rcases hres1 with ⟨hfound, hoid, howners⟩ | ⟨hnot, howdef, hoid, howners⟩
    · exact ⟨by rw [howners, hfound], hoid⟩
    · constructor
      · rw [howners, findOwnerByLogin, List.find?_append]
        have hl : db0.owners.find?
            (fun o => toLowerStr o.login == toLowerStr p1.owner.login) = none := by
          simpa [findOwnerByLogin] using hnot
        rw [hl]
        simp [howdef]
      · rw [howdef, hoid]
  obtain ⟨howfind, hoideq⟩ := howmain
  have h2found : oid2 = ow1.id ∧ db2.owners = db1.owners := by
    rcases hres2 with ⟨hfound2, hoid2, howners2⟩ | ⟨hnot2, _, _, _⟩
    · rw [hpredeq, howfind] at hfound2
      have heq := Option.some.inj hfound2
      exact ⟨by rw [hoid2, heq], howners2⟩
    · rw [hpredeq, howfind] at hnot2
      simp at hnot2
  obtain ⟨hoid2eq, howners2eq⟩ := h2found
  have hgh2' : db2.gitHubRepositories =
      (db0.gitHubRepositories ++
        [{ id := db0.nextGitHubRepositoryID, name := p1.name, ownerID := oid1,
           isPrivate := p1.isPrivate, fork := p1.fork, htmlURL := p1.htmlURL }]) ++
        [{ id := db0.nextGitHubRepositoryID + 1, name := p2.name, ownerID := oid2,
           isPrivate := p2.isPrivate, fork := p2.fork, htmlURL := p2.htmlURL }] := by
    rw [hgh2, hgh1, hng1]
  have hlgh : db0.gitHubRepositories.find?
      (fun g => g.id == db0.nextGitHubRepositoryID) = none := by
    rw [List.find?_eq_none]
    intro g hgm
    have hb := (hwf.gitHubRepositoryIDsBound g hgm).2
    simp only [beq_iff_eq]
    omega
  have hlgh1 : db0.gitHubRepositories.find?
      (fun g => g.id == db0.nextGitHubRepositoryID + 1) = none := by
    rw [List.find?_eq_none]
    intro g hgm
    have hb := (hwf.gitHubRepositoryIDsBound g hgm).2
    simp only [beq_iff_eq]
    omega
  have hfindI : findGitHubRepositoryRow db2.gitHubRepositories
      db0.nextGitHubRepositoryID =
      some { id := db0.nextGitHubRepositoryID, name := p1.name, ownerID := oid1,
             isPrivate := p1.isPrivate, fork := p1.fork, htmlURL := p1.htmlURL } := by
    rw [hgh2', findGitHubRepositoryRow, List.find?_append, List.find?_append, hlgh]
    simp
  have hfindJ : findGitHubRepositoryRow db2.gitHubRepositories
      (db0.nextGitHubRepositoryID + 1) =
      some { id := db0.nextGitHubRepositoryID + 1, name := p2.name, ownerID := oid2,
             isPrivate := p2.isPrivate, fork := p2.fork, htmlURL := p2.htmlURL } := by
    rw [hgh2', findGitHubRepositoryRow, List.find?_append, List.find?_append, hlgh1]
    simp
  have hfi1 : findRepositoryRow db1.repositories i =
      some { rowI with gitHubRepositoryID := some db0.nextGitHubRepositoryID } := by
    rw [hrepos1, hrowIid, findRepositoryRow_map_set, hfi]
    simp [hrowIid]
  have hfi2 : findRepositoryRow db2.repositories i =
      some { rowI with gitHubRepositoryID := some db0.nextGitHubRepositoryID } := by
    rw [hrepos2, hrowJid, findRepositoryRow_map_set, hfi1]
    have hf : rowI.id ≠ j := by
      rw [hrowIid]
      exact hij
    simp [hf]
  have hfj2 : findRepositoryRow db2.repositories j =
      some { rowJ with gitHubRepositoryID := some (db0.nextGitHubRepositoryID + 1) } := by
    rw [hrepos2, hng1, hrowJid, findRepositoryRow_map_set, hfj1]
    simp [hrowJid]
  refine ⟨db1, db2, hok1, hok2, howners2eq, ?_, ?_, ow1.id, _, _, _, _,
    db0.nextGitHubRepositoryID, db0.nextGitHubRepositoryID + 1,
    hfi2, rfl, hfindI, by simpa using hoideq, hfj2, rfl, hfindJ,
    by simpa using hoid2eq⟩
  · intro hn
    rcases hres1 with ⟨hf, _, _⟩ | ⟨_, hdef, _, how⟩
    · rw [hn] at hf
      simp at hf
    · rw [how, hdef]
  · intro ow hfound
    rcases hres1 with ⟨_, _, how⟩ | ⟨hnot, _, _, _⟩
    · exact how
    · rw [hfound] at hnot
      simp at hnot

/-- Witness for C4: two owners "Foo" and "foo" with different endpoints end
up as one owner row. -/
theorem c4_owner_reuse_witness :
    ∃ db1 db2,
      updateGitHubRepository
        { repositories := [{ id := 1, path := "/a", gitHubRepositoryID := none },
                           { id := 2, path := "/b", gitHubRepositoryID := none }],
          gitHubRepositories := [], owners := [],
          nextRepositoryID := 3, nextGitHubRepositoryID := 1, nextOwnerID := 1 }
        { path := "/a",
          gitHubRepository := some { name := "n1",
                                     owner := { login := "Foo", endpoint := "E1" },
                                     isPrivate := false, fork := false,
                                     htmlURL := "u1" },
          id := some 1 } = Except.ok db1 ∧
      updateGitHubRepository db1
        { path := "/b",
          gitHubRepository := some { name := "n2",
                                     owner := { login := "foo", endpoint := "E2" },
                                     isPrivate := false, fork := false,
                                     htmlURL := "u2" },
          id := some 2 } = Except.ok db2 ∧
      db2.owners = db1.owners ∧
      (findOwnerByLogin [] "Foo" = none →
        db1.owners = [] ++ [{ id := 1, login := "Foo", endpoint := "E1" }]) ∧
      (∀ ow, findOwnerByLogin [] "Foo" = some ow → db1.owners = []) ∧
      ∃ (oid : Nat) (rI rJ : DatabaseRepository)
        (ghI ghJ : DatabaseGitHubRepository) (gI gJ : Nat),
        findRepositoryRow db2.repositories 1 = some rI ∧
        rI.gitHubRepositoryID = some gI ∧
        findGitHubRepositoryRow db2.gitHubRepositories gI = some ghI ∧
        ghI.ownerID = oid ∧
        findRepositoryRow db2.repositories 2 = some rJ ∧
        rJ.gitHubRepositoryID = some gJ ∧
        findGitHubRepositoryRow db2.gitHubRepositories gJ = some ghJ ∧
        ghJ.ownerID = oid :=
  c4_owner_reuse
    { repositories := [{ id := 1, path := "/a", gitHubRepositoryID := none },
                       { id := 2, path := "/b", gitHubRepositoryID := none }],
      gitHubRepositories := [], owners := [],
      nextRepositoryID := 3, nextGitHubRepositoryID := 1, nextOwnerID := 1 }
    (by constructor <;> decide)
    { path := "/a",
      gitHubRepository := some { name := "n1",
                                 owner := { login := "Foo", endpoint := "E1" },
                                 isPrivate := false, fork := false,
                                 htmlURL := "u1" },
      id := some 1 }
    { path := "/b",
      gitHubRepository := some { name := "n2",
                                 owner := { login := "foo", endpoint := "E2" },
                                 isPrivate := false, fork := false,
                                 htmlURL := "u2" },
      id := some 2 }
    { name := "n1", owner := { login := "Foo", endpoint := "E1" },
      isPrivate := false, fork := false, htmlURL := "u1" }
    { name := "n2", owner := { login := "foo", endpoint := "E2" },
      isPrivate := false, fork := false, htmlURL := "u2" }
    1 2 rfl rfl rfl rfl (by decide) (by decide) (by decide)
    { id := 1, path := "/a", gitHubRepositoryID := none }
    { id := 2, path := "/b", gitHubRepositoryID := none }
    rfl rfl rfl rfl (by decide)

theorem find?_append_some {α : Type} (p : α → Bool) (l1 l2 : List α) (x : α)
    (h : l1.find? p = some x) : (l1 ++ l2).find? p = some x := by
  rw [List.find?_append, h]
  rfl

theorem findOwnerRow_self (rows : List DatabaseOwner)
    (hnd : (rows.map (fun o => o.id)).Nodup) (ow : DatabaseOwner)
    (hmem : ow ∈ rows) : findOwnerRow rows ow.id = some ow := by
  induction rows with
  | nil => cases hmem
  | cons a rest ih =>
    rw [List.map_cons, List.nodup_cons] at hnd
    rcases List.mem_cons.mp hmem with heq | hmem2
    · subst heq
      rw [findOwnerRow]
      simp [List.find?_cons]
    · have hne : (a.id == ow.id) = false := by
        have : ow.id ∈ rest.map (fun o => o.id) := List.mem_map_of_mem _ hmem2
        simp only [beq_eq_false_iff_ne, ne_eq]
        intro hcontra
        exact hnd.1 (hcontra ▸ this)
      rw [findOwnerRow, List.find?_cons, hne]
      exact ih hnd.2 hmem2

theorem inflateRepository_extend (db db1 : Database)
    (egh : List DatabaseGitHubRepository) (eow : List DatabaseOwner)
    (hgh : db1.gitHubRepositories = db.gitHubRepositories ++ egh)
    (how : db1.owners = db.owners ++ eow)
    (row : DatabaseRepository) (entry : Repository)
    (h : inflateRepository db row = some entry) :
    inflateRepository db1 row = some entry := by
  cases hr : row.gitHubRepositoryID with
  | none =>
    simp only [inflateRepository.eq_def, hr] at h ⊢
    exact h
  | some gid =>
    simp only [inflateRepository.eq_def, hr] at h ⊢
    cases hge : findGitHubRepositoryRow db.gitHubRepositories gid with
    | none => rw [hge] at h; simp at h
    | some gh =>
      rw [hge] at h
      cases hoe : findOwnerRow db.owners gh.ownerID with
      | none => simp only [hoe] at h; simp at h
      | some ow =>
        simp only [hoe] at h
        have hge1 : findGitHubRepositoryRow db1.gitHubRepositories gid = some gh := by
          rw [hgh, findGitHubRepositoryRow]
          exact find?_append_some _ _ _ _ hge
        have hoe1 : findOwnerRow db1.owners gh.ownerID = some ow := by
          rw [how, findOwnerRow]
          exact find?_append_some _ _ _ _ hoe
        rw [hge1]
        simp only [hoe1]
        exact h

theorem inflateRepositories_extend (db db1 : Database)
    (egh : List DatabaseGitHubRepository) (eow : List DatabaseOwner)
    (hgh : db1.gitHubRepositories = db.gitHubRepositories ++ egh)
    (how : db1.owners = db.owners ++ eow)
    (rows : List DatabaseRepository) (l : List Repository)
    (h : inflateRepositories db rows = some l) :
    inflateRepositories db1 rows = some l := by
  induction rows generalizing l with
  | nil =>
    rw [inflateRepositories] at h ⊢
    exact h
  | cons row rest ih =>
    rw [inflateRepositories] at h ⊢
    cases hr : inflateRepository db row with
    | none => rw [hr] at h; simp at h
    | some entry =>
      rw [hr] at h
      cases hrest : inflateRepositories db rest with
      | none => simp only [hrest] at h; simp at h
      | some lrest =>
        simp only [hrest] at h
        rw [inflateRepository_extend db db1 egh eow hgh how row entry hr]
        simp only [ih lrest hrest]
        exact h

theorem inflateRepositories_append_some (db : Database)
    (l1 l2 : List DatabaseRepository) (a b : List Repository)
    (h1 : inflateRepositories db l1 = some a)
    (h2 : inflateRepositories db l2 = some b) :
    inflateRepositories db (l1 ++ l2) = some (a ++ b) := by
  induction l1 generalizing a with
  | nil =>
    rw [inflateRepositories] at h1
    cases h1
    simpa using h2
  | cons row rest ih =>
    rw [inflateRepositories] at h1
    cases hr : inflateRepository db row with
    | none => rw [hr] at h1; simp at h1
    | some entry =>
      rw [hr] at h1
      cases hrest : inflateRepositories db rest with
      | none => simp only [hrest] at h1; simp at h1
      | some lrest =>
        simp only [hrest, Option.some.injEq] at h1
        rw [List.cons_append, inflateRepositories, hr]
        simp only [ih lrest hrest]
        rw [← h1]
        rfl

theorem inflateRepositories_isSome_of_wf (db : Database) (hwf : WellFormed db)
    (rows : List DatabaseRepository)
    (hsub : ∀ r ∈ rows, r ∈ db.repositories) :
    ∃ l, inflateRepositories db rows = some l := by
  induction rows with
  | nil => exact ⟨[], rfl⟩
  | cons row rest ih =>
    obtain ⟨l, hl⟩ := ih (fun r hr => hsub r (List.mem_cons_of_mem _ hr))
    have hrow : ∃ entry, inflateRepository db row = some entry := by
      cases hr : row.gitHubRepositoryID with
      | none =>
        refine ⟨{ path := row.path, gitHubRepository := none, id := some row.id }, ?_⟩
        simp only [inflateRepository.eq_def, hr]
      | some gid =>
        obtain ⟨ghrow, hghm, hghid⟩ :=
          hwf.gitHubRefs row (hsub row (List.mem_cons_self _ _)) gid hr
        have hfg : (findGitHubRepositoryRow db.gitHubRepositories gid).isSome := by
          rw [findGitHubRepositoryRow, List.find?_isSome]
          exact ⟨ghrow, hghm, by simp [hghid]⟩
        obtain ⟨gh, hgh⟩ := Option.isSome_iff_exists.mp hfg
        obtain ⟨ow0, howm, howid⟩ :=
          hwf.ownerRefs gh (List.mem_of_find?_eq_some hgh)
        have hfo : (findOwnerRow db.owners gh.ownerID).isSome := by
          rw [findOwnerRow, List.find?_isSome]
          exact ⟨ow0, howm, by simp [howid]⟩
        obtain ⟨ow, how⟩ := Option.isSome_iff_exists.mp hfo
        refine ⟨{ path := row.path,
                  gitHubRepository := some { name := gh.name,
                                             owner := { login := ow.login,
                                                        endpoint := ow.endpoint },
                                             isPrivate := gh.isPrivate,
                                             fork := gh.fork,
                                             htmlURL := gh.htmlURL },
                  id := some row.id }, ?_⟩
        simp only [inflateRepository.eq_def, hr, hgh, how]
    obtain ⟨entry, hentry⟩ := hrow
    exact ⟨entry :: l, by rw [inflateRepositories, hentry]; simp only [hl]⟩

/-- C5 (amended): `addRepository(x)` followed by `getRepositories()` yields
a list containing an entry whose path and identifier are those assigned at
insert, and whose remote metadata equals `x`'s — provided any pre-existing
owner row whose login matches `x`'s owner login case-insensitively carries
exactly `x`'s owner login and endpoint (otherwise the case-insensitive
owner-reuse rule substitutes the stored owner's fields; see the
counterexample). -/
theorem c5_round_trip (db0 : Database) (hwf : WellFormed db0) (x : Repository)
    (hown : ∀ ow ∈ db0.owners, ∀ g, x.gitHubRepository = some g →
      toLowerStr ow.login = toLowerStr g.owner.login →
      ow.login = g.owner.login ∧ ow.endpoint = g.owner.endpoint)
    (db1 : Database) (r : Repository)
    (hadd : addRepository db0 x = Except.ok (db1, r)) :
    r.id = some db0.nextRepositoryID ∧
    ∃ l, getRepositories db1 = some l ∧
      ∃ entry ∈ l, entry.path = x.path ∧
        entry.id = some db0.nextRepositoryID ∧
        entry.gitHubRepository = x.gitHubRepository := by
  obtain ⟨hr, hrest⟩ := addRepository_ok_spec db0 x db1 r hadd
  have hrid : r.id = some db0.nextRepositoryID := by rw [hr]
  refine ⟨hrid, ?_⟩
  obtain ⟨l0, hl0⟩ :=
    inflateRepositories_isSome_of_wf db0 hwf db0.repositories (fun a h => h)
  rcases hrest with ⟨hgh, hdb⟩ | ⟨p, hgh, hup⟩
  · subst hdb
    have hl0e : inflateRepositories (insertRepositoryRow db0 x.path)
        db0.repositories = some l0 :=
      inflateRepositories_extend db0 _ [] []
        (by simp [insertRepositoryRow]) (by simp [insertRepositoryRow]) _ l0 hl0
    have hnew : inflateRepository (insertRepositoryRow db0 x.path)
        { id := db0.nextRepositoryID, path := x.path, gitHubRepositoryID := none } =
        some { path := x.path, gitHubRepository := none,
               id := some db0.nextRepositoryID } := by
      simp only [inflateRepository.eq_def]
    have hone : inflateRepositories (insertRepositoryRow db0 x.path)
        [{ id := db0.nextRepositoryID, path := x.path, gitHubRepositoryID := none }] =
        some [{ path := x.path, gitHubRepository := none,
                id := some db0.nextRepositoryID }] := by
      simp only [inflateRepositories, hnew]
    have happ := inflateRepositories_append_some _ db0.repositories
      [{ id := db0.nextRepositoryID, path := x.path, gitHubRepositoryID := none }]
      l0 [{ path := x.path, gitHubRepository := none,
            id := some db0.nextRepositoryID }] hl0e hone
    refine ⟨l0 ++ [{ path := x.path, gitHubRepository := none,
                     id := some db0.nextRepositoryID }], ?_,
      { path := x.path, gitHubRepository := none,
        id := some db0.nextRepositoryID }, by simp, rfl, rfl, by rw [hgh]⟩
    rw [getRepositories]
    exact happ
  · obtain ⟨pname, pown, ppriv, pfork, purl⟩ := p
    obtain ⟨plogin, pend⟩ := pown
    have hnid0 : db0.nextRepositoryID ≠ 0 := by
      have := hwf.nextRepositoryIDPos
      omega
    obtain ⟨oid, ow1, db1x, hok, hres, hghs, hng, hrepos⟩ :=
      update_unlinked_spec (insertRepositoryRow db0 x.path)
        { x with id := some db0.nextRepositoryID } db0.nextRepositoryID
        ⟨pname, ⟨plogin, pend⟩, ppriv, pfork, purl⟩ rfl hnid0 hgh
        { id := db0.nextRepositoryID, path := x.path, gitHubRepositoryID := none }
        (findRepositoryRow_insert db0 hwf x.path) rfl
    have hdb1 : db1 = db1x := (Except.ok.inj (hok.symm.trans hup)).symm
    subst hdb1
    have hghlist : db1.gitHubRepositories = db0.gitHubRepositories ++
        [{ id := db0.nextGitHubRepositoryID, name := pname, ownerID := oid,
           isPrivate := ppriv, fork := pfork, htmlURL := purl }] := by
      simpa [insertRepositoryRow] using hghs
    have howext : ∃ e, db1.owners = db0.owners ++ e := by
      rcases hres with ⟨_, _, h⟩ | ⟨_, _, _, h⟩
      · exact ⟨[], by simpa [insertRepositoryRow] using h⟩
      · exact ⟨[ow1], by simpa [insertRepositoryRow] using h⟩
    obtain ⟨eow, heow⟩ := howext
    have hl1 : inflateRepositories db1 db0.repositories = some l0 :=
      inflateRepositories_extend db0 db1 _ eow hghlist heow _ l0 hl0
    have howner : ∃ owres, findOwnerRow db1.owners oid = some owres ∧
        owres.login = plogin ∧ owres.endpoint = pend := by
      rcases hres with ⟨hfound, hoid, howners⟩ | ⟨hnot, hdef, hoid, howners⟩
      · have hfound0 : findOwnerByLogin db0.owners plogin = some ow1 := by
          simpa [insertRepositoryRow] using hfound
        have hmem := List.mem_of_find?_eq_some hfound0
        have hloweq : toLowerStr ow1.login = toLowerStr plogin := by
          have hpred := List.find?_some hfound0
          simpa using hpred
        obtain ⟨hlog, hendp⟩ :=
          hown ow1 hmem ⟨pname, ⟨plogin, pend⟩, ppriv, pfork, purl⟩ hgh hloweq
        refine ⟨ow1, ?_, by simpa using hlog, by simpa using hendp⟩
        have howners0 : db1.owners = db0.owners := by
          simpa [insertRepositoryRow] using howners
        rw [howners0, hoid]
        exact findOwnerRow_self db0.owners hwf.ownerIDs ow1 hmem
      · have hdef0 : ow1 = { id := db0.nextOwnerID, login := plogin, endpoint := pend } := by
          simpa [insertRepositoryRow] using hdef
        have howners0 : db1.owners = db0.owners ++ [ow1] := by
          simpa [insertRepositoryRow] using howners
        have hoid0 : oid = db0.nextOwnerID := by
          simpa [insertRepositoryRow] using hoid
        refine ⟨ow1, ?_, by rw [hdef0], by rw [hdef0]⟩
        rw [howners0, hoid0, findOwnerRow, List.find?_append]
        have hleft : db0.owners.find? (fun o => o.id == db0.nextOwnerID) = none := by
          rw [List.find?_eq_none]
          intro o hom
          have hb := (hwf.ownerIDsBound o hom).2
          simp only [beq_iff_eq]
          omega
        rw [hleft, hdef0]
        simp
    obtain ⟨owres, hosome, holog, hoend⟩ := howner
    have hghfind : findGitHubRepositoryRow db1.gitHubRepositories
        db0.nextGitHubRepositoryID =
        some { id := db0.nextGitHubRepositoryID, name := pname, ownerID := oid,
               isPrivate := ppriv, fork := pfork, htmlURL := purl } := by
      rw [hghlist, findGitHubRepositoryRow, List.find?_append]
      have hleft : db0.gitHubRepositories.find?
          (fun g => g.id == db0.nextGitHubRepositoryID) = none := by
        rw [List.find?_eq_none]
        intro g hgm
        have hb := (hwf.gitHubRepositoryIDsBound g hgm).2
        simp only [beq_iff_eq]
        omega
      rw [hleft]
      simp
    have hreposplit : db1.repositories = db0.repositories ++
        [{ id := db0.nextRepositoryID, path := x.path,
           gitHubRepositoryID := some db0.nextGitHubRepositoryID }] := by
      rw [hrepos]
      simp only [insertRepositoryRow, List.map_append, List.map_cons, List.map_nil]
      congr 1
      · nth_rewrite 2 [← List.map_id db0.repositories]
        apply List.map_congr_left
        intro a ha
        have hb := (hwf.repositoryIDsBound a ha).2
        have hne : (a.id == db0.nextRepositoryID) = false := by
          simp only [beq_eq_false_iff_ne, ne_eq]
          omega
        simp [hne]
      · simp
    have hnewinf : inflateRepository db1
        { id := db0.nextRepositoryID, path := x.path,
          gitHubRepositoryID := some db0.nextGitHubRepositoryID } =
        some { path := x.path,
               gitHubRepository := some { name := pname,
                                          owner := { login := plogin,
                                                     endpoint := pend },
                                          isPrivate := ppriv, fork := pfork,
                                          htmlURL := purl },
               id := some db0.nextRepositoryID } := by
      simp only [inflateRepository.eq_def, hghfind, hosome]
      rw [holog, hoend]
    have hone : inflateRepositories db1
        [{ id := db0.nextRepositoryID, path := x.path,
           gitHubRepositoryID := some db0.nextGitHubRepositoryID }] =
        some [{ path := x.path,
                gitHubRepository := some { name := pname,
                                           owner := { login := plogin,
                                                      endpoint := pend },
                                           isPrivate := ppriv, fork := pfork,
                                           htmlURL := purl },
                id := some db0.nextRepositoryID }] := by
      simp only [inflateRepositories, hnewinf]
    have happ := inflateRepositories_append_some db1 db0.repositories
      [{ id := db0.nextRepositoryID, path := x.path,
         gitHubRepositoryID := some db0.nextGitHubRepositoryID }]
      l0 [{ path := x.path,
            gitHubRepository := some { name := pname,
                                       owner := { login := plogin,
                                                  endpoint := pend },
                                       isPrivate := ppriv, fork := pfork,
                                       htmlURL := purl },
            id := some db0.nextRepositoryID }] hl1 hone
    refine ⟨l0 ++ [{ path := x.path,
                     gitHubRepository := some { name := pname,
                                                owner := { login := plogin,
                                                           endpoint := pend },
                                                isPrivate := ppriv, fork := pfork,
                                                htmlURL := purl },
                     id := some db0.nextRepositoryID }], ?_,
      { path := x.path,
        gitHubRepository := some { name := pname,
                                   owner := { login := plogin, endpoint := pend },
                                   isPrivate := ppriv, fork := pfork,
                                   htmlURL := purl },
        id := some db0.nextRepositoryID }, by simp, rfl, rfl, by rw [hgh]⟩
    rw [getRepositories, hreposplit]
    exact happ

/-- C5 counterexample: when an owner row with a case-insensitively matching
login but different spelling and endpoint already exists, the round-tripped
entry's remote owner fields are the stored owner's ("foo"/"A"), not the
input's ("FOO"/"B") — so the returned remote fields do not equal `x`'s. -/
theorem c5_counterexample :
    (addRepository
        { repositories := [], gitHubRepositories := [],
          owners := [{ id := 1, login := "foo", endpoint := "A" }],
          nextRepositoryID := 1, nextGitHubRepositoryID := 1, nextOwnerID := 2 }
        { path := "/p",
          gitHubRepository := some { name := "n",
                                     owner := { login := "FOO", endpoint := "B" },
                                     isPrivate := false, fork := false,
                                     htmlURL := "u" },
          id := none }).toOption.bind (fun pr => getRepositories pr.1) =
      some [{ path := "/p",
              gitHubRepository := some { name := "n",
                                         owner := { login := "foo", endpoint := "A" },
                                         isPrivate := false, fork := false,
                                         htmlURL := "u" },
              id := some 1 }] ∧
    ({ name := "n", owner := { login := "foo", endpoint := "A" },
       isPrivate := false, fork := false, htmlURL := "u" } : GitHubRepository) ≠
      { name := "n", owner := { login := "FOO", endpoint := "B" },
        isPrivate := false, fork := false, htmlURL := "u" } := by
  decide

/-- Witness for C5 (amended) on the empty catalog with remote metadata. -/
theorem c5_round_trip_witness :
    ({ path := "/p",
       gitHubRepository := some { name := "n",
                                  owner := { login := "foo", endpoint := "E" },
                                  isPrivate := false, fork := false,
                                  htmlURL := "u" },
       id := some 1 } : Repository).id = some 1 ∧
    ∃ l, getRepositories
        { repositories := [{ id := 1, path := "/p", gitHubRepositoryID := some 1 }],
          gitHubRepositories := [{ id := 1, name := "n", ownerID := 1,
                                   isPrivate := false, fork := false,
                                   htmlURL := "u" }],
          owners := [{ id := 1, login := "foo", endpoint := "E" }],
          nextRepositoryID := 2, nextGitHubRepositoryID := 2,
          nextOwnerID := 2 } = some l ∧
      ∃ entry ∈ l, entry.path = "/p" ∧ entry.id = some 1 ∧
        entry.gitHubRepository = some { name := "n",
                                        owner := { login := "foo", endpoint := "E" },
                                        isPrivate := false, fork := false,
                                        htmlURL := "u" } :=
  c5_round_trip emptyDatabase (by constructor <;> decide)
    { path := "/p",
      gitHubRepository := some { name := "n",
                                 owner := { login := "foo", endpoint := "E" },
                                 isPrivate := false, fork := false,
                                 htmlURL := "u" },
      id := none }
    (by simp [emptyDatabase])
    { repositories := [{ id := 1, path := "/p", gitHubRepositoryID := some 1 }],
      gitHubRepositories := [{ id := 1, name := "n", ownerID := 1,
                               isPrivate := false, fork := false,
                               htmlURL := "u" }],
      owners := [{ id := 1, login := "foo", endpoint := "E" }],
      nextRepositoryID := 2, nextGitHubRepositoryID := 2, nextOwnerID := 2 }
    { path := "/p",
      gitHubRepository := some { name := "n",
                                 owner := { login := "foo", endpoint := "E" },
                                 isPrivate := false, fork := false,
                                 htmlURL := "u" },
      id := some 1 }
    rfl
